import Mathlib

/-!
Verification of the paintr editing core: a shallow embedding of
`crates/paintr/src/plane.rs` and `crates/paintr/src/main.rs`, together with
spec-modelled definitions for the parts of the core that live in the
`paintr_core` / `paintr_widgets` crates (undo history, canvas, image merge),
and theorems settling the specified properties.

Modelling conventions:
* `f64` coordinates (druid `Size`, `Vec2`, `Point`) are modelled as exact
  rationals `ℚ`; all arithmetic the claims exercise (addition, `max`,
  truncating cast to `u32`) is exact on the values that occur.
* `u8` channels and `u32` pixel dimensions are modelled as `Nat`.
* `Arc<T>` is modelled as a value tagged with an allocation identity
  (`id : Nat`); `Arc::ptr_eq` compares the tags.  A fresh allocation is
  modelled by passing an explicit fresh tag.
* Pixel grids are total functions `Nat → Nat → pixel` together with the
  buffer dimensions.
-/

namespace Paintr

/-- One RGBA8 pixel (`image::Rgba<u8>`). -/
structure Rgba where
  r : Nat
  g : Nat
  b : Nat
  a : Nat
deriving DecidableEq

/-- One RGB8 pixel (`image::Rgb<u8>`). -/
structure Rgb where
  r : Nat
  g : Nat
  b : Nat
deriving DecidableEq

/-- An RGBA8 pixel buffer (`image::ImageBuffer<Rgba<u8>, _>`). -/
structure RgbaBuffer where
  width : Nat
  height : Nat
  pix : Nat → Nat → Rgba

/-- An RGB8 pixel buffer. -/
structure RgbBuffer where
  width : Nat
  height : Nat
  pix : Nat → Nat → Rgb

/-- An 8-bit grayscale pixel buffer. -/
structure LumaBuffer where
  width : Nat
  height : Nat
  pix : Nat → Nat → Nat

/-- `image::DynamicImage`: a decoded raster in one of several pixel formats
(three representative variants are modelled). -/
inductive DynamicImage where
  | imageRgba8 (buf : RgbaBuffer)
  | imageRgb8 (buf : RgbBuffer)
  | imageLuma8 (buf : LumaBuffer)

def DynamicImage.width : DynamicImage → Nat
  | .imageRgba8 b => b.width
  | .imageRgb8 b => b.width
  | .imageLuma8 b => b.width

def DynamicImage.height : DynamicImage → Nat
  | .imageRgba8 b => b.height
  | .imageRgb8 b => b.height
  | .imageLuma8 b => b.height

/-- `DynamicImage::to_rgba8`: convert any variant to an RGBA8 buffer
(RGB gains an opaque alpha channel, grayscale is replicated across RGB). -/
def DynamicImage.to_rgba8 : DynamicImage → RgbaBuffer
  | .imageRgba8 b => b
  | .imageRgb8 b =>
      ⟨b.width, b.height, fun x y => ⟨(b.pix x y).r, (b.pix x y).g, (b.pix x y).b, 255⟩⟩
  | .imageLuma8 b =>
      ⟨b.width, b.height, fun x y => ⟨b.pix x y, b.pix x y, b.pix x y, 255⟩⟩

/-- Whether a `DynamicImage` is in the RGBA8 format. -/
def DynamicImage.isRgba8 : DynamicImage → Bool
  | .imageRgba8 _ => true
  | _ => false

/-- `to_rgba` from `main.rs`: re-wrap an already-RGBA8 image without
conversion, convert every other format via `to_rgba8`. -/
def to_rgba (img : DynamicImage) : DynamicImage :=
  DynamicImage.imageRgba8 (match img with
    | .imageRgba8 b => b
    | img => img.to_rgba8)

/-- `DynamicImage::new_rgba8`: a fully transparent RGBA8 image. -/
def DynamicImage.new_rgba8 (w h : Nat) : DynamicImage :=
  .imageRgba8 ⟨w, h, fun _ _ => ⟨0, 0, 0, 0⟩⟩

/-- druid `Size` (f64 width/height, modelled exactly over ℚ). -/
structure Size where
  width : ℚ
  height : ℚ
deriving DecidableEq

/-- druid `Vec2`. -/
structure Vec2 where
  x : ℚ
  y : ℚ
deriving DecidableEq

def Vec2.ZERO : Vec2 := ⟨0, 0⟩

instance : Add Vec2 :=
  ⟨fun a b => ⟨a.x + b.x, a.y + b.y⟩⟩

/-- druid `Point`. -/
structure Point where
  x : ℚ
  y : ℚ
deriving DecidableEq

/-- `Vec2::to_point`. -/
def Vec2.to_point (v : Vec2) : Point := ⟨v.x, v.y⟩

/-- Rust's `as u32` cast from `f64` for the non-negative in-range values that
occur here: truncation toward zero, clamped below at 0. -/
def ratToU32 (q : ℚ) : Nat := (⌊q⌋).toNat

/-- `std::sync::Arc<α>`: a shared value tagged with its allocation identity. -/
structure Arc (α : Type) where
  id : Nat
  val : α

/-- `Arc::ptr_eq`: identity of the allocation, not of the contents. -/
def Arc.ptr_eq {α : Type} (a b : Arc α) : Bool := a.id == b.id

/-- `Plane` from `plane.rs`: one visual layer; currently only the `Image`
variant exists. -/
inductive Plane where
  | Image (img : Arc DynamicImage)

/-- Modelled from the spec: the `Paintable` impl for `Arc<DynamicImage>` lives
in the `paintr_core` crate, outside the inspected sources.  Per the spec, a
Plane's paint size "for `Image`, equals buffer dimensions". -/
def DynamicImage.paint_size (img : DynamicImage) : Option Size :=
  some ⟨(img.width : ℚ), (img.height : ℚ)⟩

/-- `Plane::paint_size` (the `Paintable` impl in `plane.rs`): dispatch on the
variant. -/
def Plane.paint_size : Plane → Option Size
  | .Image it => it.val.paint_size

/-- `Plane::image`: the shared raster of an `Image` plane. -/
def Plane.image : Plane → Arc DynamicImage
  | .Image it => it

/-- `PlaneIndex` from `plane.rs`: an opaque handle, a wrapped index. -/
structure PlaneIndex where
  idx : Nat
deriving DecidableEq

/-- `PlaneData` from `plane.rs`: a shared plane together with its offset. -/
structure PlaneData where
  inner : Arc Plane
  transform : Vec2

/-- `Planes` from `plane.rs`: the plane stack. -/
structure Planes where
  planes : List PlaneData

/-- `PartialEq for Planes`: same length and pairwise `Arc::ptr_eq` of the
shared plane entries. -/
def Planes.eq (s other : Planes) : Bool :=
  if s.planes.length ≠ other.planes.length then false
  else (s.planes.zip other.planes).all fun ab => Arc.ptr_eq ab.1.inner ab.2.inner

/-- `Data for Planes`: `same` delegates to `==`. -/
def Planes.same (s other : Planes) : Bool := Planes.eq s other

/-- `Planes::new`. -/
def Planes.new : Planes := ⟨[]⟩

/-- `Planes::max_size`: fold the planes' paint sizes with a component-wise
maximum, starting from `None`. -/
def Planes.max_size (s : Planes) : Option Size :=
  s.planes.foldl (fun acc plane_data =>
    let size := plane_data.inner.val.paint_size
    match acc, size with
    | none, _ => size
    | some _, none => acc
    | some acc, some size =>
        some ⟨max acc.width size.width, max acc.height size.height⟩) none

/-- `Planes::push`: append the plane behind a fresh `Arc` with zero offset and
return the handle of the new top.  The fresh allocation identity of `Arc::new`
is passed explicitly. -/
def Planes.push (s : Planes) (fresh : Nat) (plane : Plane) : Planes × PlaneIndex :=
  let planes' := s.planes ++ [⟨⟨fresh, plane⟩, Vec2.ZERO⟩]
  (⟨planes'⟩, ⟨planes'.length - 1⟩)

/-- Modelled from the spec: `image_utils::merge_image` lives in `paintr_core`,
outside the inspected sources.  Per the spec it paints `src` onto `dst` at
`offset` "using overwrite compositing within the plane's own opaque/alpha
footprint", leaving pixels outside the footprint and the destination
dimensions unchanged. -/
def merge_image (dst : DynamicImage) (src : DynamicImage) (offset : Vec2) : DynamicImage :=
  .imageRgba8 ⟨dst.width, dst.height, fun x y =>
    let sx : ℚ := (x : ℚ) - offset.x
    let sy : ℚ := (y : ℚ) - offset.y
    if 0 ≤ sx ∧ sx < (src.width : ℚ) ∧ 0 ≤ sy ∧ sy < (src.height : ℚ) ∧
        (src.to_rgba8.pix (ratToU32 sx) (ratToU32 sy)).a ≠ 0 then
      src.to_rgba8.pix (ratToU32 sx) (ratToU32 sy)
    else dst.to_rgba8.pix x y⟩

/-- `Planes::merged`: `None` when `max_size` is `None`, otherwise a fresh
transparent buffer of that size with every plane merged in order at its
offset.  (The `Arc::new` wrapper around the result is elided: no property
concerns the result's allocation identity.) -/
def Planes.merged (s : Planes) : Option DynamicImage :=
  match s.max_size with
  | none => none
  | some size =>
      let img := DynamicImage.new_rgba8 (ratToU32 size.width) (ratToU32 size.height)
      some (s.planes.foldl
        (fun img plane => merge_image img plane.inner.val.image.val plane.transform) img)

/-- `Planes::mov`: translate the topmost plane's offset by `offset` and return
its new absolute position; `None` on an empty stack. -/
def Planes.mov (s : Planes) (offset : Vec2) : Planes × Option Point :=
  match s.planes.getLast? with
  | none => (s, none)
  | some plane =>
      let plane' : PlaneData := { plane with transform := plane.transform + offset }
      (⟨s.planes.dropLast ++ [plane']⟩, some plane'.transform.to_point)

/-- Modelled from the spec: the `Selection` type lives in `paintr_core`,
outside the inspected sources.  Per the spec it is a rectangular region over
the merged raster; only its identity under `same` matters here. -/
structure Selection where
  x : ℚ
  y : ℚ
  w : ℚ
  h : ℚ
deriving DecidableEq

/-- Modelled from the spec: `CanvasData` lives in `paintr_core`, outside the
inspected sources.  Per the spec a Canvas is "identity (file path or display
name) + Plane Stack + optional Selection". -/
structure CanvasData where
  path : String
  planes : Planes
  selection : Option Selection

/-- Modelled from the spec: `same` for `CanvasData` compares the identity, the
plane stack (with the stack's identity-based `same`), and the selection. -/
def CanvasData.same (a b : CanvasData) : Bool :=
  (a.path == b.path) && Planes.same a.planes b.planes
    && decide (a.selection = b.selection)

/-- `EditKind` from `paintr_core` (declared outside the inspected sources;
modelled from the spec): Mergeable or NonMergeable, set per submission. -/
inductive EditKind where
  | mergeable
  | nonMergeable
deriving DecidableEq

/-- Modelled from the spec: an `Edit` lives in `paintr_core`, outside the
inspected sources.  Per the spec it is "a reversible operation (apply + undo +
human-readable description)"; `family` models the "same logical operation
family" judgement used by mergeable coalescing. -/
structure Edit where
  apply : CanvasData → CanvasData
  undo : CanvasData → CanvasData
  description : String
  family : Nat

/-- Modelled from the spec: `UndoHistory` lives in `paintr_core`, outside the
inspected sources.  Two LIFO stacks of submitted edits with their kinds. -/
structure UndoHistory where
  done : List (Edit × EditKind)
  undone : List (Edit × EditKind)

/-- `UndoHistory::new`. -/
def UndoHistory.new : UndoHistory := ⟨[], []⟩

/-- Modelled from the spec: `EditorState` lives in `paintr_widgets`, outside
the inspected sources; only the fields the core manipulates are modelled. -/
structure EditorState where
  canvas : Option CanvasData
  history : UndoHistory

/-- Modelled from the spec: `EditorState::do_edit` lives in `paintr_widgets`,
outside the inspected sources.  Per the spec: apply the edit to the current
Canvas; if the kind and the top of `done` are both Mergeable and the two edits
are judged the same logical family, the new edit replaces the top entry,
otherwise it is pushed; in all cases `undone` is cleared; returns whether the
edit was applied (false when there is no Canvas to edit). -/
def EditorState.do_edit (st : EditorState) (e : Edit) (kind : EditKind) :
    Bool × EditorState :=
  match st.canvas with
  | none => (false, st)
  | some c =>
      let below : List (Edit × EditKind) :=
        match kind, st.history.done with
        | .mergeable, (top, .mergeable) :: rest =>
            if top.family == e.family then rest else st.history.done
        | _, _ => st.history.done
      (true, { canvas := some (e.apply c), history := ⟨(e, kind) :: below, []⟩ })

/-- Modelled from the spec: `EditorState::do_undo` lives in `paintr_widgets`,
outside the inspected sources.  Per the spec: if `done` is non-empty, pop its
top entry, apply its inverse to the Canvas, push the entry onto `undone` and
return its description; otherwise a silent no-op. -/
def EditorState.do_undo (st : EditorState) : Option String × EditorState :=
  match st.history.done, st.canvas with
  | (e, k) :: rest, some c =>
      (some e.description,
        { canvas := some (e.undo c),
          history := ⟨rest, (e, k) :: st.history.undone⟩ })
  | _, _ => (none, st)

/-- Modelled from the spec: the `Paste` action lives in `paintr_core`, outside
the inspected sources.  Per the spec a paste draws the image as a new topmost
plane of the Canvas; its inverse removes that plane again.  The fresh plane's
allocation identities are derived from the stack length (the exact identities
do not affect any property proved here). -/
def Paste.new (img : DynamicImage) : Edit :=
  { apply := fun c =>
      { c with planes :=
          ⟨c.planes.planes ++
            [⟨⟨c.planes.planes.length, Plane.Image ⟨c.planes.planes.length, img⟩⟩,
              Vec2.ZERO⟩]⟩ }
    undo := fun c => { c with planes := ⟨c.planes.planes.dropLast⟩ }
    description := "Paste"
    family := 1 }

/-- `AppState` from `main.rs`; the UI-only fields (notifications, modal) are
out of scope and omitted. -/
structure AppState where
  editor : EditorState

/-- `AppState::do_paste` from `main.rs`: read the clipboard (passed here as an
explicit collaborator result); a clipboard error propagates, an empty
clipboard returns `false` untouched, an image is normalised to RGBA8 and
submitted as a NonMergeable `Paste` edit. -/
def AppState.do_paste (clipboard : Except String (Option DynamicImage))
    (st : AppState) : Except String (Bool × AppState) :=
  match clipboard with
  | .error e => .error e
  | .ok none => .ok (false, st)
  | .ok (some img) =>
      let img := to_rgba img
      let r := st.editor.do_edit (Paste.new img) EditKind.nonMergeable
      .ok (r.1, { st with editor := r.2 })

/-! ## Helper lemmas -/

/-- The pairwise `Arc::ptr_eq` check over a zip of equally long lists is
equivalent to equality of the lists of allocation identities. -/
lemma zip_all_ptr_eq :
    ∀ (l1 l2 : List PlaneData), l1.length = l2.length →
      ((((l1.zip l2).all fun ab => Arc.ptr_eq ab.1.inner ab.2.inner) = true) ↔
        l1.map (fun pd => pd.inner.id) = l2.map (fun pd => pd.inner.id)) := by
  intro l1
  induction l1 with
  | nil =>
      intro l2 hlen
      cases l2 with
      | nil => simp
      | cons b l2 => simp at hlen
  | cons a l1 ih =>
      intro l2 hlen
      cases l2 with
      | nil => simp at hlen
      | cons b l2 =>
          have hlen' : l1.length = l2.length := by simpa using hlen
          simp only [List.zip_cons_cons, List.all_cons, List.map_cons, Bool.and_eq_true,
            List.cons.injEq]
          rw [ih l2 hlen']
          simp [Arc.ptr_eq]

/-- `Planes::eq` holds exactly when the lists of plane allocation identities
coincide. -/
lemma planes_eq_iff_map (s t : Planes) :
    Planes.eq s t = true ↔
      s.planes.map (fun pd => pd.inner.id) = t.planes.map (fun pd => pd.inner.id) := by
  unfold Planes.eq
  rcases eq_or_ne s.planes.length t.planes.length with hlen | hlen
  · rw [if_neg (by simp [hlen])]
    exact zip_all_ptr_eq _ _ hlen
  · rw [if_pos hlen]
    constructor
    · intro h
      exact (Bool.false_ne_true h).elim
    · intro hmap
      have hlen2 := congrArg List.length hmap
      simp only [List.length_map] at hlen2
      exact (hlen hlen2).elim

/-- A 1×1 opaque white image, used in several concrete instances. -/
def whiteImg : DynamicImage := .imageRgba8 ⟨1, 1, fun _ _ => ⟨255, 255, 255, 255⟩⟩

/-! ## C3: stack equality is identity of the shared planes -/

def c3stackA : Planes := ⟨[⟨⟨0, Plane.Image ⟨10, whiteImg⟩⟩, Vec2.ZERO⟩]⟩

def c3stackB : Planes := ⟨[⟨⟨1, Plane.Image ⟨11, whiteImg⟩⟩, Vec2.ZERO⟩]⟩

/-- C3: two Plane Stacks are `==`-equal (and `same()`-equal, which delegates
to `==`) exactly when they have the same length and, position by position,
the same shared plane allocation (pointer identity); and two stacks built
independently over pixel-identical buffers compare unequal. -/
theorem planes_eq_is_identity :
    (∀ s t : Planes, Planes.eq s t = true ↔
        s.planes.map (fun pd => pd.inner.id) = t.planes.map (fun pd => pd.inner.id)) ∧
    (∀ s t : Planes, Planes.same s t = Planes.eq s t) ∧
    (c3stackA.planes.map (fun pd => pd.inner.val.image.val) =
        c3stackB.planes.map (fun pd => pd.inner.val.image.val) ∧
      Planes.eq c3stackA c3stackB = false) :=
  ⟨planes_eq_iff_map, fun _ _ => rfl, rfl, rfl⟩

/-! ## C10: `mov` is invisible to stack equality -/

/-- C10: for every stack and delta, the stack after `mov` is `==`-equal (and
`same()`-equal) to the stack before: the equality compares only length and
plane identity and ignores the per-plane offsets. -/
theorem mov_invisible_to_eq :
    ∀ (s : Planes) (d : Vec2),
      Planes.eq (s.mov d).1 s = true ∧ Planes.same (s.mov d).1 s = true := by
  intro s d
  have key : Planes.eq (s.mov d).1 s = true := by
    rw [planes_eq_iff_map]
    cases h : s.planes.getLast? with
    | none => simp [Planes.mov, h]
    | some pd =>
        have hl : s.planes.dropLast ++ [pd] = s.planes :=
          List.dropLast_append_getLast? pd (Option.mem_def.mpr h)
        simp only [Planes.mov, h]
        conv_rhs => rw [← hl]
        simp
  exact ⟨key, key⟩

/-! ## C4: `mov` on a non-empty stack -/

/-- C4: on a stack whose topmost plane is `pd`, `mov d` replaces only the
topmost entry, adding `d` to its offset, and returns the resulting absolute
offset as a point. -/
theorem mov_nonempty_spec :
    ∀ (s : Planes) (d : Vec2) (pd : PlaneData), s.planes.getLast? = some pd →
      (s.mov d).1.planes =
          s.planes.dropLast ++ [{ pd with transform := pd.transform + d }] ∧
      (s.mov d).1.planes.dropLast = s.planes.dropLast ∧
      (s.mov d).1.planes.length = s.planes.length ∧
      (s.mov d).2 = some (pd.transform + d).to_point := by
  intro s d pd h
  have hl : s.planes.dropLast ++ [pd] = s.planes :=
    List.dropLast_append_getLast? pd (Option.mem_def.mpr h)
  have h1 : (s.mov d).1.planes =
      s.planes.dropLast ++ [{ pd with transform := pd.transform + d }] := by
    simp [Planes.mov, h]
  have h2 : (s.mov d).1.planes.dropLast = s.planes.dropLast := by
    rw [h1]
    exact List.dropLast_concat ..
  have h3 : (s.mov d).1.planes.length = s.planes.length := by
    rw [h1]
    conv_rhs => rw [← hl]
    simp
  have h4 : (s.mov d).2 = some (pd.transform + d).to_point := by
    simp [Planes.mov, h]
  exact ⟨h1, h2, h3, h4⟩

def c4pd : PlaneData := ⟨⟨0, Plane.Image ⟨0, whiteImg⟩⟩, ⟨2, 3⟩⟩

def c4stack : Planes := ⟨[c4pd]⟩

/-- Witness for C4 at a one-plane stack with offset (2,3) moved by (1,2). -/
theorem mov_nonempty_spec_witness :
    (c4stack.mov ⟨1, 2⟩).1.planes =
        c4stack.planes.dropLast ++ [{ c4pd with transform := c4pd.transform + ⟨1, 2⟩ }] ∧
    (c4stack.mov ⟨1, 2⟩).1.planes.dropLast = c4stack.planes.dropLast ∧
    (c4stack.mov ⟨1, 2⟩).1.planes.length = c4stack.planes.length ∧
    (c4stack.mov ⟨1, 2⟩).2 = some (c4pd.transform + ⟨1, 2⟩).to_point :=
  mov_nonempty_spec c4stack ⟨1, 2⟩ c4pd rfl

/-! ## C5: `mov` on an empty stack is a silent no-op -/

/-- C5: on an empty Plane Stack `mov` returns `None` and leaves the stack
unchanged. -/
theorem mov_empty_noop :
    ∀ (s : Planes) (d : Vec2), s.planes = [] → s.mov d = (s, none) := by
  intro s d h
  simp [Planes.mov, h]

/-- Witness for C5 at the freshly constructed empty stack. -/
theorem mov_empty_noop_witness : Planes.new.mov ⟨1, 1⟩ = (Planes.new, none) :=
  mov_empty_noop Planes.new ⟨1, 1⟩ rfl

/-! ## C7: `to_rgba` normalises to RGBA8 and reuses RGBA8 input -/

/-- C7: `to_rgba` always yields the RGBA8 format; an RGBA8 input is returned
with its very pixel buffer, every other format is converted via `to_rgba8`. -/
theorem to_rgba_spec :
    (∀ img : DynamicImage, (to_rgba img).isRgba8 = true) ∧
    (∀ b : RgbaBuffer, to_rgba (.imageRgba8 b) = .imageRgba8 b) ∧
    (∀ b : RgbBuffer,
        to_rgba (.imageRgb8 b) = .imageRgba8 (DynamicImage.to_rgba8 (.imageRgb8 b))) ∧
    (∀ b : LumaBuffer,
        to_rgba (.imageLuma8 b) = .imageRgba8 (DynamicImage.to_rgba8 (.imageLuma8 b))) := by
  refine ⟨fun img => ?_, fun b => rfl, fun b => rfl, fun b => rfl⟩
  cases img <;> rfl

/-! ## C8: `push` appends at zero offset and returns the new top's handle -/

/-- C8: `push` appends the plane as the new topmost entry with zero offset,
leaves every earlier entry (and its offset) unchanged, and returns the handle
whose index is the stack's previous length. -/
theorem push_spec :
    ∀ (s : Planes) (fresh : Nat) (p : Plane),
      (s.push fresh p).1.planes = s.planes ++ [⟨⟨fresh, p⟩, Vec2.ZERO⟩] ∧
      (s.push fresh p).1.planes.take s.planes.length = s.planes ∧
      (s.push fresh p).2 = ⟨s.planes.length⟩ := by
  intro s fresh p
  refine ⟨rfl, List.take_left _ _, ?_⟩
  simp [Planes.push]

/-! ## C6: paste with an empty clipboard is a no-op returning false -/

/-- C6: when the clipboard yields no image, `do_paste` returns `false`,
submits nothing, and the history's `done` depth is unchanged. -/
theorem do_paste_empty_clipboard :
    ∀ st : AppState,
      AppState.do_paste (Except.ok none) st = Except.ok (false, st) ∧
      ∃ r, AppState.do_paste (Except.ok none) st = Except.ok r ∧
        r.2.editor.history.done.length = st.editor.history.done.length :=
  fun st => ⟨rfl, (false, st), rfl, rfl⟩

/-! ## C9: `do_edit` then `do_undo` restores the Canvas up to `same()` -/

/-- C9: for every edit (of either kind) satisfying the spec's reversibility
contract at the current Canvas, `do_edit` followed by `do_undo` leaves the
Canvas `same()`-equal to the state before the edit. -/
theorem do_edit_then_undo_restores :
    ∀ (st : EditorState) (c : CanvasData) (e : Edit) (k : EditKind),
      st.canvas = some c →
      CanvasData.same (e.undo (e.apply c)) c = true →
      ∃ c2, ((st.do_edit e k).2.do_undo).2.canvas = some c2 ∧
        CanvasData.same c2 c = true := by
  intro st c e k hc hrev
  obtain ⟨cv, hist⟩ := st
  simp only at hc
  subst hc
  exact ⟨e.undo (e.apply c), rfl, hrev⟩

def c9canvas : CanvasData := ⟨"a", ⟨[⟨⟨5, Plane.Image ⟨6, whiteImg⟩⟩, Vec2.ZERO⟩]⟩, none⟩

def c9state : EditorState := ⟨some c9canvas, UndoHistory.new⟩

/-- Witness for C9: a NonMergeable paste onto a one-plane canvas, then undo. -/
theorem do_edit_then_undo_restores_witness :
    ∃ c2, ((c9state.do_edit (Paste.new whiteImg) EditKind.nonMergeable).2.do_undo).2.canvas
          = some c2 ∧
      CanvasData.same c2 c9canvas = true :=
  do_edit_then_undo_restores c9state c9canvas (Paste.new whiteImg) EditKind.nonMergeable
    rfl (by decide)

/-! ## C1: `max_size` ignores the per-plane offsets -/

def redBuf : RgbaBuffer := ⟨50, 50, fun _ _ => ⟨255, 0, 0, 255⟩⟩

def blueBuf : RgbaBuffer := ⟨50, 50, fun _ _ => ⟨0, 0, 255, 255⟩⟩

/-- The claim's scenario: opaque red 50×50 at offset (0,0) below opaque blue
50×50 at offset (25,25). -/
def scenarioStack : Planes :=
  ⟨[⟨⟨0, Plane.Image ⟨0, .imageRgba8 redBuf⟩⟩, ⟨0, 0⟩⟩,
    ⟨⟨1, Plane.Image ⟨1, .imageRgba8 blueBuf⟩⟩, ⟨25, 25⟩⟩]⟩

/-- Counterexample to C1: on the claim's own two-plane scenario, `max_size`
returns (50,50), not the claimed (75,75) — the fold in `Planes::max_size`
takes the component-wise maximum of the paint sizes only and never reads the
per-plane offsets. -/
theorem max_size_cex :
    Planes.max_size scenarioStack = some ⟨50, 50⟩ ∧
    Planes.max_size scenarioStack ≠ some ⟨75, 75⟩ := by
  constructor
  · decide
  · decide

/-- The amended bounding box, following the amended claim's words: the
component-wise maximum over all planes' paint sizes alone, the offsets
ignored; `none` when no plane has a size. -/
def maxSizeSpec (s : Planes) : Option Size :=
  match s.planes.filterMap fun pd => pd.inner.val.paint_size with
  | [] => none
  | sz :: rest =>
      some (rest.foldl (fun acc size =>
        ⟨max acc.width size.width, max acc.height size.height⟩) sz)

/-- The `max_size` fold, once the accumulator is a size, computes the
component-wise maximum fold over the remaining paint sizes. -/
lemma max_size_foldl_some :
    ∀ (l : List PlaneData) (a : Size),
      List.foldl (fun acc plane_data =>
          let size := plane_data.inner.val.paint_size
          match acc, size with
          | none, _ => size
          | some _, none => acc
          | some acc, some size =>
              some ⟨max acc.width size.width, max acc.height size.height⟩) (some a) l
        = some (List.foldl (fun acc size =>
            ⟨max acc.width size.width, max acc.height size.height⟩) a
            (l.filterMap fun pd => pd.inner.val.paint_size)) := by
  intro l
  induction l with
  | nil => intro a; rfl
  | cons pd l ih =>
      intro a
      rw [List.foldl_cons, List.filterMap_cons]
      cases hps : pd.inner.val.paint_size with
      | none => simpa only [hps] using ih a
      | some sz => simpa only [hps, List.foldl_cons] using ih ⟨max a.width sz.width, max a.height sz.height⟩

/-- The `max_size` fold from the `none` accumulator agrees with the
spec-style bounding box. -/
lemma max_size_foldl_none :
    ∀ l : List PlaneData,
      List.foldl (fun acc plane_data =>
          let size := plane_data.inner.val.paint_size
          match acc, size with
          | none, _ => size
          | some _, none => acc
          | some acc, some size =>
              some ⟨max acc.width size.width, max acc.height size.height⟩) none l
        = match l.filterMap fun pd => pd.inner.val.paint_size with
          | [] => none
          | sz :: rest =>
              some (rest.foldl (fun acc size =>
                ⟨max acc.width size.width, max acc.height size.height⟩) sz) := by
  intro l
  induction l with
  | nil => rfl
  | cons pd l ih =>
      rw [List.foldl_cons, List.filterMap_cons]
      cases hps : pd.inner.val.paint_size with
      | none => simpa only [hps] using ih
      | some sz => simp only [hps, max_size_foldl_some]

/-- C1 amended: `max_size()` is the component-wise maximum over all planes'
paint sizes with the offsets ignored (`None` when the stack is empty or every
plane is sizeless); on the claim's two-plane scenario it equals (50,50). -/
theorem max_size_amended :
    (∀ s : Planes, s.max_size = maxSizeSpec s) ∧
    Planes.max_size scenarioStack = some ⟨50, 50⟩ := by
  constructor
  · intro s
    exact max_size_foldl_none s.planes
  · decide

/-! ## C2: `merged` is `None` iff `max_size` is, with matching dimensions -/

/-- Every plane's paint size is a pair of natural pixel dimensions. -/
lemma plane_paint_size_nat (pd : PlaneData) :
    ∃ w h : Nat, pd.inner.val.paint_size = some ⟨(w : ℚ), (h : ℚ)⟩ := by
  cases hp : pd.inner.val with
  | Image it =>
      exact ⟨it.val.width, it.val.height, rfl⟩

/-- The `max_size` fold sends a `none`-or-natural accumulator to a natural
result. -/
lemma max_size_foldl_nat :
    ∀ (l : List PlaneData) (acc : Option Size),
      (acc = none ∨ ∃ w h : Nat, acc = some ⟨(w : ℚ), (h : ℚ)⟩) →
      ∀ sz : Size,
        List.foldl (fun acc plane_data =>
            let size := plane_data.inner.val.paint_size
            match acc, size with
            | none, _ => size
            | some _, none => acc
            | some acc, some size =>
                some ⟨max acc.width size.width, max acc.height size.height⟩) acc l
          = some sz →
        ∃ w h : Nat, sz = ⟨(w : ℚ), (h : ℚ)⟩ := by
  intro l
  induction l with
  | nil =>
      intro acc hacc sz h
      rcases hacc with h0 | ⟨w, hh, he⟩
      · rw [h0] at h
        exact absurd h (by simp)
      · rw [he] at h
        exact ⟨w, hh, (Option.some.inj h).symm⟩
  | cons pd l ih =>
      intro acc hacc sz h
      rw [List.foldl_cons] at h
      obtain ⟨w2, h2, hps⟩ := plane_paint_size_nat pd
      refine ih _ ?_ sz h
      rcases hacc with h0 | ⟨w1, h1, he⟩
      · exact Or.inr ⟨w2, h2, by rw [h0]; simp [hps]⟩
      · exact Or.inr ⟨max w1 w2, max h1 h2, by rw [he]; simp [hps, Nat.cast_max]⟩

/-- `max_size`, when defined, is a pair of natural pixel dimensions. -/
lemma max_size_nat (s : Planes) (sz : Size) (h : s.max_size = some sz) :
    ∃ w h2 : Nat, sz = ⟨(w : ℚ), (h2 : ℚ)⟩ :=
  max_size_foldl_nat s.planes none (Or.inl rfl) sz h

/-- Merging planes into a buffer never changes the buffer's dimensions. -/
lemma merged_foldl_dims :
    ∀ (l : List PlaneData) (img : DynamicImage),
      (List.foldl (fun img plane =>
          merge_image img plane.inner.val.image.val plane.transform) img l).width
        = img.width ∧
      (List.foldl (fun img plane =>
          merge_image img plane.inner.val.image.val plane.transform) img l).height
        = img.height := by
  intro l
  induction l with
  | nil => intro img; exact ⟨rfl, rfl⟩
  | cons pd l ih =>
      intro img
      have h := ih (merge_image img pd.inner.val.image.val pd.transform)
      exact ⟨by rw [List.foldl_cons, h.1]; rfl, by rw [List.foldl_cons, h.2]; rfl⟩

/-- Truncating cast of an exact natural value is the identity. -/
lemma ratToU32_natCast (n : Nat) : ratToU32 (n : ℚ) = n := by
  simp [ratToU32]

/-- C2: `merged()` is `None` exactly when `max_size()` is `None` (so for the
empty stack in particular), and whenever `max_size()` is `Some sz` the merged
buffer exists and its width and height equal `sz`. -/
theorem merged_dims :
    ∀ s : Planes,
      (s.merged = none ↔ s.max_size = none) ∧
      (∀ sz : Size, s.max_size = some sz →
        ∃ img, s.merged = some img ∧
          (img.width : ℚ) = sz.width ∧ (img.height : ℚ) = sz.height) := by
  intro s
  constructor
  · unfold Planes.merged
    cases h : s.max_size with
    | none => simp
    | some sz => simp
  · intro sz h
    obtain ⟨w, hgt, hsz⟩ := max_size_nat s sz h
    subst hsz
    refine ⟨s.planes.foldl (fun img plane =>
        merge_image img plane.inner.val.image.val plane.transform)
        (DynamicImage.new_rgba8 (ratToU32 ((w : Nat) : ℚ)) (ratToU32 ((hgt : Nat) : ℚ))),
      ?_, ?_, ?_⟩
    · simp only [Planes.merged, h]
    · rw [(merged_foldl_dims s.planes _).1]
      show ((ratToU32 ((w : Nat) : ℚ) : Nat) : ℚ) = ((w : Nat) : ℚ)
      rw [ratToU32_natCast]
    · rw [(merged_foldl_dims s.planes _).2]
      show ((ratToU32 ((hgt : Nat) : ℚ) : Nat) : ℚ) = ((hgt : Nat) : ℚ)
      rw [ratToU32_natCast]

def c2buf : RgbaBuffer := ⟨40, 30, fun _ _ => ⟨0, 0, 0, 255⟩⟩

def c2stack : Planes := ⟨[⟨⟨0, Plane.Image ⟨0, .imageRgba8 c2buf⟩⟩, Vec2.ZERO⟩]⟩

/-- Witness for C2 at a one-plane 40×30 stack. -/
theorem merged_dims_witness :
    ∃ img, c2stack.merged = some img ∧
      (img.width : ℚ) = (Size.mk 40 30).width ∧
      (img.height : ℚ) = (Size.mk 40 30).height :=
  (merged_dims c2stack).2 ⟨40, 30⟩ (by decide)

end Paintr
